import Mathlib

/-!
Verification development for the temporal/spatial decomposition engine of
PyGdalSAR (src/timeseries/invers_disp2coef.py).

Shallow embedding conventions:
* numpy float values are modelled as rationals; a possibly-NaN float is
  modelled as Option ℚ with none = NaN.  Arithmetic on Option ℚ propagates
  none exactly as IEEE NaN propagates through +, -, *, /.
* numpy 1-D arrays are modelled as lists (when their length matters or they
  are indexed dynamically) or as functions from indices.
* 2-D maps are functions Fin nl → Fin nc → Option ℚ.
* External library routines (scipy SVD, scipy lstsq, scipy fmin_slsqp,
  numpy sqrt) are modelled as oracle parameters: arbitrary total functions
  supplied to the embedded code, matching the fact that the source treats
  their outputs as opaque data.
* Python exceptions are modelled with Except NpErr; a try/except block is a
  match on that result.
-/

/-- Error values raised by the modelled numpy/python operations. -/
inductive NpErr where
  | dimMismatch       -- the explicit ValueError in consInvert
  | indexOutOfRange   -- python list IndexError
  | tooManyIndices    -- numpy IndexError: too many indices for array
  deriving DecidableEq, Repr

/-- NaN-propagating addition on modelled floats. -/
def oadd : Option ℚ → Option ℚ → Option ℚ
  | some a, some b => some (a + b)
  | _, _ => none

/-- NaN-propagating subtraction on modelled floats. -/
def osub : Option ℚ → Option ℚ → Option ℚ
  | some a, some b => some (a - b)
  | _, _ => none

/-- NaN-propagating multiplication on modelled floats. -/
def omul : Option ℚ → Option ℚ → Option ℚ
  | some a, some b => some (a * b)
  | _, _ => none

/-- NaN-propagating division on modelled floats (exact rational division;
the float inf/nan results of dividing by zero are out of scope and noted
where relevant). -/
def odiv : Option ℚ → Option ℚ → Option ℚ
  | some a, some b => some (a / b)
  | _, _ => none

/-!
## RobustStats: percentile computation and uncertainty-weight flooring

np.nanpercentile with the default linear interpolation: drop the NaNs, sort
ascending, take the value at fractional rank (n-1)*q/100, linearly
interpolating between the two neighbouring order statistics.
-/

/-- Insert a value into an ascending-sorted list, keeping it sorted. -/
def insertAsc (a : ℚ) : List ℚ → List ℚ
  | [] => [a]
  | b :: t => if a ≤ b then a :: b :: t else b :: insertAsc a t

/-- Ascending sort (model of the sort inside np.percentile). -/
def sortAsc (l : List ℚ) : List ℚ := l.foldr insertAsc []

/-- Non-NaN entries of a modelled float vector, in order. -/
def validVals (v : List (Option ℚ)) : List ℚ := v.filterMap id

/-- Linear-interpolation percentile of a list of (non-NaN) values:
the exact arithmetic of np.percentile(a, q, interpolation=linear).
Returns none on an empty list (np.nanpercentile of an all-NaN vector
is NaN). -/
def percentileLinear (l : List ℚ) (q : ℚ) : Option ℚ :=
  match sortAsc l with
  | [] => none
  | s =>
    let n := s.length
    let pos : ℚ := q / 100 * ((n : ℚ) - 1)
    let i : ℕ := (⌊pos⌋).toNat
    let frac : ℚ := pos - (i : ℚ)
    let lo := s.getD i 0
    let hi := s.getD (min (i + 1) (n - 1)) 0
    some (lo + frac * (hi - lo))

/-- nanpercentile: percentile of the non-NaN entries. -/
def nanpercentile (v : List (Option ℚ)) (q : ℚ) : Option ℚ :=
  percentileLinear (validVals v) q

/-- Percentile floor applied to an uncertainty-weight vector, the operation
shared by the three weighting sites of the source
(invers_disp2coef.py lines 981-983, 3486-3488 and 3550-3552):
minaps = np.nanpercentile(v, 2); v[np.flatnonzero(v < minaps)] = minaps.
A NaN entry compares false against minaps and is left untouched; if the
percentile itself is NaN (all-NaN input) nothing is replaced. -/
def floorWeights (v : List (Option ℚ)) : List (Option ℚ) :=
  match nanpercentile v 2 with
  | none => v
  | some p => v.map (fun x =>
      match x with
      | some q => if q < p then some p else some q
      | none => none)

/-- Seed-file initialisation of the per-epoch uncertainties
(invers_disp2coef.py lines 974-984): load the vector, floor it at its own
2nd percentile. -/
def initInapsSeed (v : List (Option ℚ)) : List (Option ℚ) := floorWeights v

/-- nanmax of a modelled float vector (none when every entry is NaN). -/
def nanmax (v : List (Option ℚ)) : Option ℚ :=
  match validVals v with
  | [] => none
  | h :: t => some (t.foldl max h)

/-- Scaling step of the iteration-0 weights (source lines 3484-3485):
divide every entry by the nanmax of the vector (all entries become NaN
when the max itself is NaN). -/
def scaleByMax (rmsv : List (Option ℚ)) : List (Option ℚ) :=
  match nanmax rmsv with
  | none => rmsv.map (fun _ => none)
  | some mx => rmsv.map (fun x => odiv x (some mx))

/-- Iteration-0 weights from the spatial-correction RMS
(invers_disp2coef.py lines 3478-3488): scale by the max, then floor at the
2nd percentile of the scaled vector. -/
def iter0Weights (rmsv : List (Option ℚ)) : List (Option ℚ) :=
  floorWeights (scaleByMax rmsv)

/-- Per-iteration weights from the aggregated absolute misfit
(invers_disp2coef.py lines 3546-3552): aps = aps / n_aps elementwise, then
floor at the 2nd percentile. -/
def iterAps (aps n_aps : List (Option ℚ)) : List (Option ℚ) :=
  floorWeights (List.zipWith odiv aps n_aps)

/-!
## SpatialCorrector: estim_ramp output assembly and empirical_cor

The per-epoch spatial correction (invers_disp2coef.py, estim_ramp lines
1068-3151 and empirical_cor lines 3153-3291).  The forty order/elevation
variants of the polynomial fit all end in the same assembly (lines
3147-3151); the fit itself (percentile screening, elevation binning,
lstsq/fmin_slsqp) is abstracted as a RampFit record holding the full-grid
ramp, the full-grid topography term and the scalar RMS it produces.
-/

/-- A 2-D displacement map; none is NaN. -/
abbrev PixMap (nl nc : ℕ) := Fin nl → Fin nc → Option ℚ

/-- np.nansum over a 2-D map: NaN entries count as zero. -/
def nansumMap {nl nc : ℕ} (m : PixMap nl nc) : ℚ :=
  ∑ i, ∑ j, ((m i j).getD 0)

/-- Result of the order-selected polynomial/elevation fit of estim_ramp:
the reconstructed full-grid ramp, the full-grid topography-correlated term
and the full-resolution residual RMS.  These are the quantities every
order/ivar branch of the source computes before the common tail. -/
structure RampFit (nl nc : ℕ) where
  ramp : PixMap nl nc
  topo : PixMap nl nc
  rms : Option ℚ

/-- Common tail of estim_ramp (source lines 3147-3151):
flata = los - ramp - topo and noramps = los - ramp, returned together with
the ramp, topo and rms of the fit. -/
def estim_ramp {nl nc : ℕ} (los : PixMap nl nc) (fit : RampFit nl nc) :
    PixMap nl nc × PixMap nl nc × PixMap nl nc × Option ℚ × PixMap nl nc :=
  let flata := fun i j => osub (osub (los i j) (fit.ramp i j)) (fit.topo i j)
  let noramps := fun i j => osub (los i j) (fit.ramp i j)
  (fit.ramp, flata, fit.topo, fit.rms, noramps)

/-- Configured reference window (the --ref_zone lines/cols box). -/
structure RefWin where
  lin_start : ℕ
  lin_end : ℕ
  col_start : ℕ
  col_end : ℕ

/-- A numpy array that is either a single 2-D map or a 3-D cube of maps;
used to model the dimension error at the heart of the reference-window
block. -/
inductive NpArr (nl nc : ℕ) where
  | a2 (m : PixMap nl nc)
  | a3 (c : ℕ → PixMap nl nc)

/-- Model of indexing an array as arr[:,:,l]: on a 2-D array numpy raises
IndexError (too many indices for array). -/
def sliceEpoch {nl nc : ℕ} : NpArr nl nc → ℕ → Except NpErr (PixMap nl nc)
  | NpArr.a2 _, _ => Except.error NpErr.tooManyIndices
  | NpArr.a3 c, l => Except.ok (c l)

/-- Elementwise subtraction of a scalar from a numpy array of either
dimensionality (maps_noramps - cst on source line 3269). -/
def NpArr.subCst {nl nc : ℕ} : NpArr nl nc → ℚ → NpArr nl nc
  | NpArr.a2 m, c => NpArr.a2 (fun i j => osub (m i j) (some c))
  | NpArr.a3 f, c => NpArr.a3 (fun l i j => osub (f l i j) (some c))

/-- Static rasters feeding the reference-window pixel selection of source
lines 3240-3255: the RMS raster used for weighting, and the remaining
elevation/mask/slope screens collapsed into one validity predicate. -/
structure RefRasters (nl nc : ℕ) where
  rmsmap : PixMap nl nc
  valid : Fin nl → Fin nc → Bool

/-- Strict-interior membership of a pixel in the reference window
(pix_az > lin_start, pix_az < lin_end, pix_rg > col_start,
pix_rg < col_end). -/
def inWin {nl nc : ℕ} (w : RefWin) (i : Fin nl) (j : Fin nc) : Bool :=
  decide (w.lin_start < (i : ℕ)) && decide ((i : ℕ) < w.lin_end) &&
  decide (w.col_start < (j : ℕ)) && decide ((j : ℕ) < w.col_end)

/-- The RMS-weighted average constant of source lines 3259-3268:
amp_ref = (1/rms)/max(1/rms) over the selected window pixels,
cst = nansum(zone*amp_ref)/nansum(amp_ref).  Unreachable in execution (see
refWindowBlock) and modelled with exact rational arithmetic. -/
def refCst {nl nc : ℕ} (R : RefRasters nl nc) (w : RefWin)
    (zone : PixMap nl nc) : ℚ :=
  let sel : Fin nl → Fin nc → Bool := fun i j => inWin w i j && R.valid i j
  let amp0 : Fin nl → Fin nc → Option ℚ := fun i j =>
    if sel i j then odiv (some 1) (R.rmsmap i j) else none
  let mx := ((nanmax (List.flatten ((List.finRange nl).map (fun i =>
    (List.finRange nc).map (fun j => amp0 i j))))).getD 1)
  let amp : Fin nl → Fin nc → Option ℚ := fun i j => odiv (amp0 i j) (some mx)
  let num := ∑ i, ∑ j, (if sel i j then (omul (zone i j) (amp i j)).getD 0 else 0)
  let den := ∑ i, ∑ j, (if sel i j then (amp i j).getD 0 else 0)
  num / den

/-- Reference-window re-referencing block (source lines 3238-3272).
The pixel selection (3240-3255) operates on whole rasters and cannot
raise.  BUG SITE: source line 3258 evaluates map_flata[:,:,l], but
map_flata is the local 2-D map just returned by estim_ramp, so numpy
raises IndexError before any constant is estimated; the subsequent lines
(including the read of the global 3-D maps_noramps on line 3269) never
execute.  The whole block sits in a try with a bare except. -/
def refWindowBlock {nl nc : ℕ} (l : ℕ) (w : RefWin) (R : RefRasters nl nc)
    (map_ramp map_flata : PixMap nl nc)
    (maps_noramps_glob : NpArr nl nc) :
    Except NpErr (PixMap nl nc × PixMap nl nc × NpArr nl nc) := do
  let zone ← sliceEpoch (NpArr.a2 map_flata) l
  let cst := refCst R w zone
  pure (fun i j => oadd (map_ramp i j) (some cst),
        fun i j => osub (map_flata i j) (some cst),
        maps_noramps_glob.subCst cst)

/-- Outputs of one per-epoch spatial-correction task. -/
structure ECResult (nl nc : ℕ) where
  ramp : PixMap nl nc
  flata : PixMap nl nc
  topo : PixMap nl nc
  rms : Option ℚ
  noramps : NpArr nl nc

/-- empirical_cor (source lines 3153-3291) for epoch l: skip everything and
return the map unchanged with zero ramp/topo and rms = 1 whenever
np.nansum of the epoch map is zero (line 3167); otherwise run the fit
(abstracted in `fit`), optionally attempt the reference-window
re-referencing (swallowing its failure, lines 3238-3272), and finally
NaN-mask ramp and topo wherever the flattened map is NaN (lines
3284-3289). -/
def empirical_cor {nl nc : ℕ} (mapl : PixMap nl nc) (fit : RampFit nl nc)
    (refwin : Option RefWin) (R : RefRasters nl nc) (l : ℕ)
    (maps_noramps_glob : NpArr nl nc) : ECResult nl nc :=
  if nansumMap mapl ≠ 0 then
    let er := estim_ramp mapl fit
    let map_ramp := er.1
    let map_flata := er.2.1
    let map_topo := er.2.2.1
    let rms := er.2.2.2.1
    let map_noramps0 := er.2.2.2.2
    let post :=
      match refwin with
      | some w =>
          match refWindowBlock l w R map_ramp map_flata maps_noramps_glob with
          | Except.ok v => v
          | Except.error _ => (map_ramp, map_flata, NpArr.a2 map_noramps0)
      | none => (map_ramp, map_flata, NpArr.a2 map_noramps0)
    { ramp := fun i j => if (post.2.1 i j).isNone then none else post.1 i j
      flata := post.2.1
      topo := fun i j => if (post.2.1 i j).isNone then none else map_topo i j
      rms := rms
      noramps := post.2.2 }
  else
    { ramp := fun i j => if (mapl i j).isNone then none else some 0
      flata := mapl
      topo := fun i j => if (mapl i j).isNone then none else some 0
      rms := some 1
      noramps := NpArr.a2 mapl }

/-!
## TemporalDecomposer: temporal_decomp (source lines 3293-3359)
-/

/-- Per-pixel temporal decomposition (source lines 3293-3359), projected on
the outputs the early-exit concerns: the coefficient vector m (initialised
to np.zeros(M)), its uncertainty sigmam (initialised to NaN) and the
forward model mdisp (initialised to NaN).  The branch taken when enough
valid samples exist (design-matrix build, consInvert call and forward
models, lines 3318-3357) is abstracted as `fit`, a function of the list of
valid epoch indices; the skip path never evaluates it. -/
def temporal_decomp (N M : ℕ) (disp : Fin N → Option ℚ)
    (fit : List (Fin N) →
      (Fin M → Option ℚ) × (Fin M → Option ℚ) × (Fin N → Option ℚ)) :
    (Fin M → Option ℚ) × (Fin M → Option ℚ) × (Fin N → Option ℚ) :=
  let k := (List.finRange N).filter (fun i => (disp i).isSome)
  let kk := k.length
  if (kk : ℚ) > (N : ℚ) / 6 then fit k
  else (fun _ => some 0, fun _ => none, fun _ => none)

/-!
## RegularizedSolver: invSVD (source lines 988-1000)
-/

/-- A thin singular value decomposition A = U diag(sv) Vh as returned by
scipy.linalg.svd(A, full_matrices=False); the inner dimension k is data. -/
structure SVDFac (r c k : ℕ) where
  U : Matrix (Fin r) (Fin k) ℚ
  sv : Fin k → ℚ
  Vh : Matrix (Fin k) (Fin c) ℚ

/-- Oracle for scipy.linalg.svd; none models a convergence failure (the
LinAlgError caught by the try/except of invSVD). -/
def SvdOracle : Type :=
  ∀ r c : ℕ, Matrix (Fin r) (Fin c) ℚ → Option ((k : ℕ) × SVDFac r c k)

/-- Oracle for scipy.linalg.lstsq, the plain unregularized least-squares
fallback. -/
def LstsqOracle : Type :=
  ∀ r c : ℕ, Matrix (Fin r) (Fin c) ℚ → (Fin r → ℚ) → (Fin c → ℚ)

/-- Computable matrix inverse over ℚ: det⁻¹ · adjugate.  Agrees with
Mathlib A⁻¹ (shown in matInv_eq_inv below the definitions); used because
the code only inverts matrices it has checked or assumed nonsingular. -/
def matInv {n : ℕ} (M : Matrix (Fin n) (Fin n) ℚ) :
    Matrix (Fin n) (Fin n) ℚ :=
  (M.det)⁻¹ • M.adjugate

/-- invSVD (source lines 988-1000).  On a successful decomposition the code
builds s = np.diag(eignv), computes inv = lst.inv(s) (raising LinAlgError
on a singular diagonal, i.e. a zero singular value, which the bare except
turns into the lstsq fallback), zeroes inv at index = np.nonzero(s < cond)
(a mask over the whole k×k matrix) and returns V.T @ inv @ U.T @ b. -/
def invSVD {r c : ℕ} (A : Matrix (Fin r) (Fin c) ℚ) (b : Fin r → ℚ)
    (cond : ℚ) (svdres : Option ((k : ℕ) × SVDFac r c k))
    (lstsqO : LstsqOracle) : Fin c → ℚ :=
  match svdres with
  | some F =>
      let s := Matrix.diagonal F.2.sv
      if s.det = 0 then lstsqO r c A b
      else
        let inv := matInv s
        let invMasked : Matrix (Fin F.1) (Fin F.1) ℚ :=
          Matrix.of fun i j => if s i j < cond then 0 else inv i j
        F.2.Vh.transpose.mulVec (invMasked.mulVec (F.2.U.transpose.mulVec b))
  | none => lstsqO r c A b

/-- The truncated pseudo-inverse least-squares solution, written from the
specification words: in x = V Σ⁺ Uᵀ b every singular value strictly below
cond has its reciprocal replaced by zero. -/
def truncPinvSol {r c k : ℕ} (F : SVDFac r c k) (b : Fin r → ℚ)
    (cond : ℚ) : Fin c → ℚ :=
  fun j => ∑ i, F.Vh.transpose j i *
    ((if F.sv i < cond then 0 else (F.sv i)⁻¹) * (F.U.transpose.mulVec b) i)

/-!
## RegularizedSolver: consInvert (source lines 1003-1066) and the
coseismic/postseismic bookkeeping it reads (source lines 891-909)
-/

/-- Module-level configuration read by consInvert: the postseismic
characteristic-time list pos (sentinel -1 for a None entry, source line
361) and the column-index arrays built at source lines 891-909. -/
structure CoPoGlobals where
  pos : List ℚ
  indexpo : List ℕ
  indexco : List ℕ
  indexpofull : List ℕ

/-- Construction of indexco (source lines 891-895): starting from the
running column index reached after the reference/linear/seasonal entries,
record one fresh column per coseismic date.  Returns the final running
index and the list. -/
def buildIndexco (startco ncos : ℕ) : ℕ × List ℕ :=
  (List.range ncos).foldl (fun p _ => (p.1 + 1, p.2 ++ [p.1])) (startco, [])

/-- Construction of indexpo and indexpofull (source lines 899-909): for
each entry of pos in order, a fresh column index is recorded in both lists
when the characteristic time is positive; otherwise indexpofull records 0
and no column is created.  Returns the final running index and the two
lists. -/
def buildIndexpo (startpo : ℕ) (pos : List ℚ) : ℕ × List ℕ × List ℕ :=
  pos.foldl (fun p tc =>
    if tc > 0 then (p.1 + 1, p.2.1 ++ [p.1], p.2.2 ++ [p.1])
    else (p.1, p.2.1, p.2.2 ++ [0])) (startpo, [], [])

/-- Python list access with IndexError. -/
def listGetE {α : Type} (l : List α) (i : ℕ) : Except NpErr α :=
  if h : i < l.length then Except.ok (l.get ⟨i, h⟩)
  else Except.error NpErr.indexOutOfRange

/-- Body of one iteration of the bound-derivation loop of consInvert
(source lines 1037-1043) once pos[i], indexpofull[i] and indexco[i] have
been read.  Bounds are modelled as functions from column index to
Option ℚ, none meaning ±inf (unbounded); assignments are function updates,
the coseismic write following the postseismic one. -/
def boundsStep (tc : ℚ) (po co : ℕ) (minit : ℕ → ℚ)
    (mm : (ℕ → Option ℚ) × (ℕ → Option ℚ)) :
    (ℕ → Option ℚ) × (ℕ → Option ℚ) :=
  let mm1 :=
    if tc > 0 ∧ minit co > 0 then
      (fun j => if j = co then some 0 else if j = po then some 0 else mm.1 j,
       fun j => if j = co then some (minit co) else if j = po then none
                else mm.2 j)
    else mm
  if tc > 0 ∧ minit co < 0 then
    (fun j => if j = co then some (minit co) else if j = po then none
              else mm1.1 j,
     fun j => if j = co then some 0 else if j = po then some 0 else mm1.2 j)
  else mm1

/-- One iteration of the bound loop including the python list reads of
pos[i], indexpofull[i] and indexco[i]. -/
def boundsStepE (pos : List ℚ) (indexco indexpofull : List ℕ)
    (minit : ℕ → ℚ) (mm : (ℕ → Option ℚ) × (ℕ → Option ℚ)) (i : ℕ) :
    Except NpErr ((ℕ → Option ℚ) × (ℕ → Option ℚ)) := do
  let tc ← listGetE pos i
  let po ← listGetE indexpofull i
  let co ← listGetE indexco i
  pure (boundsStep tc po co minit mm)

/-- Bound derivation of consInvert (source lines 1032-1043): mmin and mmax
start at -inf/+inf for every parameter; the loop runs over
range(len(indexco)) and reads pos[i] and indexpofull[i] as python list
accesses, so it raises IndexError whenever the postseismic configuration
list is shorter than the coseismic one — reachable, because the length
check at source line 363 is skipped when pos is empty.  minit is in-range
by construction (indexco entries are below M) and modelled as a total
function. -/
def buildBounds (pos : List ℚ) (indexco indexpofull : List ℕ)
    (minit : ℕ → ℚ) : Except NpErr ((ℕ → Option ℚ) × (ℕ → Option ℚ)) :=
  (List.range indexco.length).foldlM (boundsStepE pos indexco indexpofull minit)
    (fun _ => none, fun _ => none)

/-- Number of enabled (positive characteristic time) entries among the
first i entries of the postseismic list: bookkeeping for the column
offsets produced by buildIndexpo. -/
def cntPos (l : List ℚ) (i : ℕ) : ℕ :=
  ((l.take i).filter (fun tc => decide (0 < tc))).length

/-- Column indices kept by np.delete(A, indexpo, 1). -/
def keptCols (c : ℕ) (idx : List ℕ) : List ℕ :=
  (List.range c).filter (fun j => decide (j ∉ idx))

/-- np.delete(A, indexpo, 1): the matrix of the kept columns in order. -/
def npDeleteCols {r c : ℕ} (A : Matrix (Fin r) (Fin c) ℚ) (idx : List ℕ) :
    Matrix (Fin r) (Fin (keptCols c idx).length) ℚ :=
  Matrix.of fun i j =>
    A i ⟨(keptCols c idx).get j, by
      have hm : (keptCols c idx).get j ∈ keptCols c idx :=
        List.get_mem (keptCols c idx) j.val j.isLt
      exact List.mem_range.mp (List.mem_of_mem_filter hm)⟩

/-- The np.insert loop of source lines 1028-1029: reinsert a zero at each
postseismic column index in order (indexpo is ascending by
construction). -/
def insertZeros (v : List ℚ) (idx : List ℕ) : List ℚ :=
  idx.foldl (fun acc z => acc.insertIdx z 0) v

/-- Oracle for scipy.optimize.fmin_slsqp: receives the design matrix, the
data, the sigmad weights, the initial vector and the (mmin, mmax) bounds
and returns the refined parameter vector res[0]; total, matching the
external contract that the optimizer always returns its best iterate. -/
def SlsqpOracle : Type :=
  ∀ r c : ℕ, Matrix (Fin r) (Fin c) ℚ → (Fin r → ℚ) → (Fin r → ℚ) →
    List ℚ → ((ℕ → Option ℚ) × (ℕ → Option ℚ)) → (Fin c → ℚ)

/-- consInvert (source lines 1003-1066).  b arrives as a python sequence
whose length is checked against A.shape[0] (the explicit ValueError of
line 1014-1015).  With ineq off the solution is invSVD; with ineq on the
prior solution is computed on A with the postseismic columns deleted,
zeros are reinserted, bounds are derived (buildBounds, which can raise)
and the slsqp oracle refines from that initial vector.  The try/except
around the covariance (lines 1057-1064) catches both the LinAlgError of a
singular AᵀA and the ZeroDivisionError of 1/(rows-cols) when rows = cols,
returning all-NaN uncertainties; otherwise sigmam is the external float
sqrt (oracle sqrtO, NaN on negative input) of scale*res2*diag((AᵀA)⁻¹). -/
def consInvert {r c : ℕ} (A : Matrix (Fin r) (Fin c) ℚ) (b : List ℚ)
    (sigmad : Fin r → ℚ) (ineq : Bool) (cond : ℚ) (gl : CoPoGlobals)
    (svdO : SvdOracle) (lstsqO : LstsqOracle) (slsqpO : SlsqpOracle)
    (sqrtO : ℚ → Option ℚ) :
    Except NpErr ((Fin c → ℚ) × (Fin c → Option ℚ)) := do
  if hdim : r ≠ b.length then
    throw NpErr.dimMismatch
  else
    let bv : Fin r → ℚ := fun i => b.get ⟨i.val, by have h1 := i.isLt; omega⟩
    let fsoln : Fin c → ℚ ←
      if ineq = false then
        pure (invSVD A bv cond (svdO r c A) lstsqO)
      else do
        let Ain := npDeleteCols A gl.indexpo
        let mt := invSVD Ain bv cond (svdO r _ Ain) lstsqO
        let mtemp := insertZeros (List.ofFn mt) gl.indexpo
        let bounds ← buildBounds gl.pos gl.indexco gl.indexpofull
          (fun j => mtemp.getD j 0)
        pure (slsqpO r c A bv sigmad mtemp bounds)
    let AtA := A.transpose * A
    let sigmam : Fin c → Option ℚ :=
      if AtA.det ≠ 0 ∧ r ≠ c then
        let varx := matInv AtA
        let res2 := ∑ i, (bv i - (A.mulVec fsoln) i) ^ 2
        let scale := 1 / ((r : ℚ) - (c : ℚ))
        fun j => sqrtO (scale * res2 * varx j j)
      else fun _ => none
    pure (fsoln, sigmam)

/-!
## Seasonal amplitude and phase outputs (source lines 3856-3865)
-/

/-- np.arctan2 y x, modelled as the argument of the complex number
x + i y (range (-π, π], zero at the origin, matching numpy away from
signed float zeros). -/
noncomputable def atan2 (y x : ℝ) : ℝ := Complex.arg ⟨x, y⟩

/-- Seasonal outputs (source lines 3856-3865): amplitude, phase and the
two uncertainty maps computed from the seasonal cosine/sine coefficient
maps and their sigmas.  Real-valued (sqrt and arctan2 are irrational);
pixels where the coefficients are NaN propagate NaN in the source and are
outside this per-pixel real model. -/
noncomputable def seasonalMaps {nl nc : ℕ}
    (cosm sinm sigcosm sigsinm : Fin nl → Fin nc → ℝ) :
    (Fin nl → Fin nc → ℝ) × (Fin nl → Fin nc → ℝ) ×
    (Fin nl → Fin nc → ℝ) × (Fin nl → Fin nc → ℝ) :=
  (fun i j => Real.sqrt ((cosm i j) ^ 2 + (sinm i j) ^ 2),
   fun i j => atan2 (sinm i j) (cosm i j),
   fun i j => Real.sqrt ((sigcosm i j) ^ 2 + (sigsinm i j) ^ 2),
   fun i j => (sigcosm i j * |sinm i j| + sigsinm i j * |cosm i j|) /
     ((sigcosm i j) ^ 2 + (sigsinm i j) ^ 2))

/-- Standard first-order propagation of the coefficient uncertainties
through amp = sqrt(c²+s²) (from the specification, for comparison):
sigma_amp = sqrt(c² sc² + s² ss²) / sqrt(c² + s²). -/
noncomputable def sigampStd (cv sv sc ss : ℝ) : ℝ :=
  Real.sqrt (cv ^ 2 * sc ^ 2 + sv ^ 2 * ss ^ 2) / Real.sqrt (cv ^ 2 + sv ^ 2)

/-- Standard first-order propagation through phase = arctan2(s, c):
sigma_phi = sqrt(s² sc² + c² ss²) / (c² + s²). -/
noncomputable def sigphiStd (cv sv sc ss : ℝ) : ℝ :=
  Real.sqrt (sv ^ 2 * sc ^ 2 + cv ^ 2 * ss ^ 2) / (cv ^ 2 + sv ^ 2)
lemma floorWeights_ge (v : List (Option ℚ)) (p : ℚ)
    (hp : nanpercentile v 2 = some p) :
    ∀ x ∈ floorWeights v, ∀ q : ℚ, x = some q → p ≤ q := by
  intro x hx q hxq
  unfold floorWeights at hx
  rw [hp] at hx
  rcases List.mem_map.mp hx with ⟨y, _, hy⟩
  cases y with
  | none => simp at hy; subst hy; cases hxq
  | some z =>
      simp only at hy
      by_cases h : z < p
      · rw [if_pos h] at hy
        subst hy
        injection hxq with h2
        exact le_of_eq h2
      · rw [if_neg h] at hy
        subst hy
        injection hxq with h2
        exact h2 ▸ le_of_not_lt h

lemma matInv_eq_inv {n : ℕ} (M : Matrix (Fin n) (Fin n) ℚ) :
    matInv M = M⁻¹ := by
  rw [Matrix.inv_def, Ring.inverse_eq_inv, matInv]

lemma osub_none_left (b : Option ℚ) : osub none b = none := by
  cases b <;> rfl

lemma osub_none_right (a : Option ℚ) : osub a none = none := by
  cases a <;> rfl

/-- C8: every per-epoch uncertainty-weight vector used to weight a temporal
pass is percentile-floored before use: whether it comes from the external
seed file, from the iteration-0 normalized spatial-correction RMS, or from
the per-iteration aggregated absolute misfit divided by the valid-pixel
counts, every entry below the vector's 2nd percentile is replaced by that
value, so that afterwards no (non-NaN) weight lies below it. -/
theorem weights_percentile_floor :
    (∀ (v : List (Option ℚ)) (p : ℚ), nanpercentile v 2 = some p →
      ∀ x ∈ initInapsSeed v, ∀ q : ℚ, x = some q → p ≤ q)
    ∧ (∀ (rmsv : List (Option ℚ)) (p : ℚ),
        nanpercentile (scaleByMax rmsv) 2 = some p →
        ∀ x ∈ iter0Weights rmsv, ∀ q : ℚ, x = some q → p ≤ q)
    ∧ (∀ (aps n_aps : List (Option ℚ)) (p : ℚ),
        nanpercentile (List.zipWith odiv aps n_aps) 2 = some p →
        ∀ x ∈ iterAps aps n_aps, ∀ q : ℚ, x = some q → p ≤ q) := by
  refine ⟨?_, ?_, ?_⟩
  · intro v p hp
    exact floorWeights_ge v p hp
  · intro rmsv p hp
    exact floorWeights_ge (scaleByMax rmsv) p hp
  · intro aps n_aps p hp
    exact floorWeights_ge (List.zipWith odiv aps n_aps) p hp

lemma sortAsc_ones : sortAsc [(1:ℚ), 1, 1, 1] = [1, 1, 1, 1] := by
  norm_num [sortAsc, insertAsc]

lemma nanpercentile_ones :
    nanpercentile [some (1:ℚ), some 1, some 1, some 1] 2 = some 1 := by
  rw [nanpercentile, show validVals [some (1:ℚ), some 1, some 1, some 1]
    = [1, 1, 1, 1] by simp [validVals], percentileLinear, sortAsc_ones]
  norm_num

lemma scaleByMax_twos : scaleByMax [some (2:ℚ), some 2] = [some 1, some 1] := by
  rw [scaleByMax, show nanmax [some (2:ℚ), some 2] = some 2 by
    simp [nanmax, validVals]]
  norm_num [odiv]

lemma nanpercentile_pair_ones :
    nanpercentile [some (1:ℚ), some 1] 2 = some 1 := by
  rw [nanpercentile, show validVals [some (1:ℚ), some 1] = [1, 1] by
    simp [validVals], percentileLinear,
    show sortAsc [(1:ℚ), 1] = [1, 1] by norm_num [sortAsc, insertAsc]]
  norm_num

lemma zip_odiv_ones :
    List.zipWith odiv [some (1:ℚ)] [some 1] = [some 1] := by
  norm_num [odiv]

lemma nanpercentile_single_one : nanpercentile [some (1:ℚ)] 2 = some 1 := by
  rw [nanpercentile, show validVals [some (1:ℚ)] = [1] by simp [validVals],
    percentileLinear, show sortAsc [(1:ℚ)] = [1] by norm_num [sortAsc, insertAsc]]
  norm_num

/-- Witness for weights_percentile_floor: concrete vectors evaluated
through each of the three pipelines, with the 2nd percentile computed
explicitly. -/
theorem weights_percentile_floor_inst :
    nanpercentile [some (1:ℚ), some 1, some 1, some 1] 2 = some 1
    ∧ nanpercentile (scaleByMax [some (2:ℚ), some 2]) 2 = some 1
    ∧ nanpercentile (List.zipWith odiv [some (1:ℚ)] [some 1]) 2 = some 1
    ∧ (1:ℚ) ≤ 1 ∧ (1:ℚ) ≤ 1 ∧ (1:ℚ) ≤ 1 := by
  have h2 : nanpercentile (scaleByMax [some (2:ℚ), some 2]) 2 = some 1 := by
    rw [scaleByMax_twos]; exact nanpercentile_pair_ones
  have h3 : nanpercentile (List.zipWith odiv [some (1:ℚ)] [some 1]) 2
      = some 1 := by
    rw [zip_odiv_ones]; exact nanpercentile_single_one
  have m1 : some (1:ℚ) ∈ initInapsSeed [some (1:ℚ), some 1, some 1, some 1] := by
    have he : initInapsSeed [some (1:ℚ), some 1, some 1, some 1]
        = [some 1, some 1, some 1, some 1] := by
      rw [initInapsSeed, floorWeights, nanpercentile_ones]
      norm_num
    rw [he]; simp
  have m2 : some (1:ℚ) ∈ iter0Weights [some (2:ℚ), some 2] := by
    have he : iter0Weights [some (2:ℚ), some 2] = [some 1, some 1] := by
      rw [iter0Weights, scaleByMax_twos, floorWeights, nanpercentile_pair_ones]
      norm_num
    rw [he]; simp
  have m3 : some (1:ℚ) ∈ iterAps [some (1:ℚ)] [some 1] := by
    have he : iterAps [some (1:ℚ)] [some 1] = [some 1] := by
      rw [iterAps, zip_odiv_ones, floorWeights, nanpercentile_single_one]
      norm_num
    rw [he]; simp
  exact ⟨nanpercentile_ones, h2, h3,
    weights_percentile_floor.1 _ 1 nanpercentile_ones (some 1) m1 1 rfl,
    weights_percentile_floor.2.1 _ 1 h2 (some 1) m2 1 rfl,
    weights_percentile_floor.2.2 _ _ 1 h3 (some 1) m3 1 rfl⟩

lemma temporal_decomp_skip_eval (N M : ℕ) (disp : Fin N → Option ℚ)
    (fit : List (Fin N) →
      (Fin M → Option ℚ) × (Fin M → Option ℚ) × (Fin N → Option ℚ))
    (h : ¬ ((((List.finRange N).filter (fun i => (disp i).isSome)).length : ℚ)
          > (N : ℚ) / 6)) :
    temporal_decomp N M disp fit
      = (fun _ => some 0, fun _ => none, fun _ => none) := by
  unfold temporal_decomp
  rw [if_neg h]

/-- C2 counterexample: a pixel with zero valid samples among N = 6 epochs
(fewer than N/6 = 1) makes temporal_decomp return the coefficient vector
np.zeros(M): its entry is 0, not NaN, so the claimed all-NaN model
coefficient vector is wrong. -/
theorem temporal_decomp_m_zero_not_nan :
    (temporal_decomp 6 1 (fun _ => none)
        (fun _ => (fun _ => some 1, fun _ => some 1, fun _ => some 1))).1 0
      = some 0
    ∧ (temporal_decomp 6 1 (fun _ => none)
        (fun _ => (fun _ => some 1, fun _ => some 1, fun _ => some 1))).1 0
      ≠ none := by
  have hl : (((List.finRange 6).filter
      (fun i => (((fun _ : Fin 6 => (none : Option ℚ))) i).isSome)).length) = 0 := by
    decide
  have he := temporal_decomp_skip_eval 6 1 (fun _ => none)
    (fun _ => (fun _ => some 1, fun _ => some 1, fun _ => some 1))
    (by rw [hl]; norm_num)
  rw [he]
  exact ⟨rfl, by simp⟩

/-- C2 (amended): for every pixel with fewer than N/6 valid samples among
the N epochs, temporal_decomp returns the all-zero model coefficient
vector (m = np.zeros(M)), an all-NaN uncertainty vector and an all-NaN
forward model, and never invokes the design-matrix/solver step: the result
is the same for every fit function. -/
theorem temporal_decomp_skip_outputs (N M : ℕ) (disp : Fin N → Option ℚ)
    (fit fit2 : List (Fin N) →
      (Fin M → Option ℚ) × (Fin M → Option ℚ) × (Fin N → Option ℚ))
    (h : ((((List.finRange N).filter (fun i => (disp i).isSome)).length : ℚ))
          < (N : ℚ) / 6) :
    temporal_decomp N M disp fit
        = (fun _ => some 0, fun _ => none, fun _ => none)
      ∧ temporal_decomp N M disp fit = temporal_decomp N M disp fit2 := by
  have hn := not_lt.mpr (le_of_lt h)
  refine ⟨temporal_decomp_skip_eval N M disp fit hn, ?_⟩
  rw [temporal_decomp_skip_eval N M disp fit hn,
    temporal_decomp_skip_eval N M disp fit2 hn]

/-- Witness for temporal_decomp_skip_outputs at N = 6, M = 2 with an
all-NaN pixel series. -/
theorem temporal_decomp_skip_outputs_inst :
    temporal_decomp 6 2 (fun _ => none)
        (fun _ => (fun _ => some 5, fun _ => some 5, fun _ => some 5))
      = (fun _ => some 0, fun _ => none, fun _ => none) := by
  have hl : (((List.finRange 6).filter
      (fun i => (((fun _ : Fin 6 => (none : Option ℚ))) i).isSome)).length) = 0 := by
    decide
  exact (temporal_decomp_skip_outputs 6 2 (fun _ => none)
    (fun _ => (fun _ => some 5, fun _ => some 5, fun _ => some 5))
    (fun _ => (fun _ => some 5, fun _ => some 5, fun _ => some 5))
    (by rw [hl]; norm_num)).1

lemma refWindowBlock_err {nl nc : ℕ} (l : ℕ) (w : RefWin) (R : RefRasters nl nc)
    (mr mf : PixMap nl nc) (g : NpArr nl nc) :
    refWindowBlock l w R mr mf g = Except.error NpErr.tooManyIndices := rfl

lemma empirical_cor_skip {nl nc : ℕ} (mapl : PixMap nl nc) (fit : RampFit nl nc)
    (refwin : Option RefWin) (R : RefRasters nl nc) (l : ℕ) (g : NpArr nl nc)
    (h : nansumMap mapl = 0) :
    empirical_cor mapl fit refwin R l g =
      { ramp := fun i j => if (mapl i j).isNone then none else some 0
        flata := mapl
        topo := fun i j => if (mapl i j).isNone then none else some 0
        rms := some 1
        noramps := NpArr.a2 mapl } := by
  unfold empirical_cor
  rw [if_neg (not_ne_iff.mpr h)]

lemma empirical_cor_fit {nl nc : ℕ} (mapl : PixMap nl nc) (fit : RampFit nl nc)
    (refwin : Option RefWin) (R : RefRasters nl nc) (l : ℕ) (g : NpArr nl nc)
    (h : nansumMap mapl ≠ 0) :
    empirical_cor mapl fit refwin R l g =
      { ramp := fun i j =>
          if (osub (osub (mapl i j) (fit.ramp i j)) (fit.topo i j)).isNone
          then none else fit.ramp i j
        flata := fun i j => osub (osub (mapl i j) (fit.ramp i j)) (fit.topo i j)
        topo := fun i j =>
          if (osub (osub (mapl i j) (fit.ramp i j)) (fit.topo i j)).isNone
          then none else fit.topo i j
        rms := fit.rms
        noramps := NpArr.a2 (fun i j => osub (mapl i j) (fit.ramp i j)) } := by
  unfold empirical_cor
  rw [if_pos h]
  cases refwin <;> rfl

/-- C7: the fully-zero (reference) epoch makes the spatial corrector take
the skip branch: it returns a zero ramp map, a zero topography map, the
unchanged all-zero map as the flattened output and the sentinel RMS value
1, and the estimation path (percentile screening, binning, ramp fit) is
never invoked — the result does not depend on the fit data at all. -/
theorem empirical_cor_zero_epoch_skip {nl nc : ℕ} (fit : RampFit nl nc)
    (refwin : Option RefWin) (R : RefRasters nl nc) (l : ℕ) (g : NpArr nl nc) :
    (∀ i j, (empirical_cor (fun _ _ => some 0 : PixMap nl nc)
        fit refwin R l g).ramp i j = some 0)
    ∧ (∀ i j, (empirical_cor (fun _ _ => some 0 : PixMap nl nc)
        fit refwin R l g).topo i j = some 0)
    ∧ (empirical_cor (fun _ _ => some 0 : PixMap nl nc) fit refwin R l g).flata
        = (fun _ _ => some 0)
    ∧ (empirical_cor (fun _ _ => some 0 : PixMap nl nc) fit refwin R l g).rms
        = some 1
    ∧ (∀ fit2 : RampFit nl nc,
        empirical_cor (fun _ _ => some 0 : PixMap nl nc) fit2 refwin R l g
          = empirical_cor (fun _ _ => some 0 : PixMap nl nc) fit refwin R l g) := by
  have h0 : nansumMap (fun _ _ => some 0 : PixMap nl nc) = 0 := by
    simp [nansumMap]
  have hs := empirical_cor_skip (fun _ _ => some 0 : PixMap nl nc)
    fit refwin R l g h0
  refine ⟨fun i j => by rw [hs]; rfl, fun i j => by rw [hs]; rfl, by rw [hs],
    by rw [hs],
    fun fit2 => by
      rw [empirical_cor_skip (fun _ _ => some 0 : PixMap nl nc) fit2 refwin R l g h0,
        hs]⟩

/-- C10 counterexample: a 1×1 epoch whose single pixel is NaN has
NaN-ignoring sum zero and takes the skip branch, but after the final NaN
masking the returned ramp map is NaN there, not zero — so such an epoch is
not returned with zero ramp/topography maps as claimed. -/
theorem empirical_cor_allnan_ramp_not_zero :
    nansumMap (fun _ _ => none : PixMap 1 1) = 0
    ∧ (empirical_cor (fun _ _ => none : PixMap 1 1)
        ⟨fun _ _ => some 7, fun _ _ => some 8, some 9⟩ none
        ⟨fun _ _ => some 1, fun _ _ => true⟩ 0
        (NpArr.a2 (fun _ _ => none))).ramp 0 0 = none
    ∧ (empirical_cor (fun _ _ => none : PixMap 1 1)
        ⟨fun _ _ => some 7, fun _ _ => some 8, some 9⟩ none
        ⟨fun _ _ => some 1, fun _ _ => true⟩ 0
        (NpArr.a2 (fun _ _ => none))).ramp 0 0 ≠ some 0 := by
  have h0 : nansumMap (fun _ _ => none : PixMap 1 1) = 0 := by
    simp [nansumMap]
  have hs := empirical_cor_skip (fun _ _ => none : PixMap 1 1)
    ⟨fun _ _ => some 7, fun _ _ => some 8, some 9⟩ none
    ⟨fun _ _ => some 1, fun _ _ => true⟩ 0 (NpArr.a2 (fun _ _ => none)) h0
  refine ⟨h0, by rw [hs]; rfl, by rw [hs]; simp⟩

/-- C10 (amended): the skip branch is taken exactly when the NaN-ignoring
sum of the epoch map is zero; such an epoch — all-zero, entirely NaN, or
with finite values summing exactly to zero — is returned with the original
map unchanged as the flattened output, RMS 1, and ramp/topography maps
that are zero at non-NaN pixels and NaN at NaN pixels (hence all-NaN for
an entirely-NaN map), independently of the fit; when the sum is nonzero
the estimation path runs and the returned RMS is the fit RMS. -/
theorem empirical_cor_skip_iff_nansum {nl nc : ℕ} (mapl : PixMap nl nc)
    (fit : RampFit nl nc) (refwin : Option RefWin) (R : RefRasters nl nc)
    (l : ℕ) (g : NpArr nl nc) :
    (nansumMap mapl = 0 →
      (empirical_cor mapl fit refwin R l g).flata = mapl
      ∧ (empirical_cor mapl fit refwin R l g).rms = some 1
      ∧ (∀ i j, (empirical_cor mapl fit refwin R l g).ramp i j
          = if (mapl i j).isNone then none else some 0)
      ∧ (∀ i j, (empirical_cor mapl fit refwin R l g).topo i j
          = if (mapl i j).isNone then none else some 0)
      ∧ (∀ fit2 : RampFit nl nc,
          empirical_cor mapl fit2 refwin R l g
            = empirical_cor mapl fit refwin R l g))
    ∧ (nansumMap mapl ≠ 0 →
        (empirical_cor mapl fit refwin R l g).rms = fit.rms) := by
  constructor
  · intro h
    have hs := empirical_cor_skip mapl fit refwin R l g h
    exact ⟨by rw [hs], by rw [hs], fun i j => by rw [hs], fun i j => by rw [hs],
      fun fit2 => by rw [empirical_cor_skip mapl fit2 refwin R l g h, hs]⟩
  · intro h
    rw [empirical_cor_fit mapl fit refwin R l g h]

/-- Witness for empirical_cor_skip_iff_nansum: a zero 1×1 epoch takes the
skip branch with RMS 1; a constant-1 epoch runs the fit and returns the
fit RMS. -/
theorem empirical_cor_skip_iff_nansum_inst :
    (empirical_cor (fun _ _ => some 0 : PixMap 1 1)
        ⟨fun _ _ => some 0, fun _ _ => some 0, some 9⟩ none
        ⟨fun _ _ => some 1, fun _ _ => true⟩ 0
        (NpArr.a2 (fun _ _ => none))).rms = some 1
    ∧ (empirical_cor (fun _ _ => some 1 : PixMap 1 1)
        ⟨fun _ _ => some 0, fun _ _ => some 0, some 9⟩ none
        ⟨fun _ _ => some 1, fun _ _ => true⟩ 0
        (NpArr.a2 (fun _ _ => none))).rms = some 9 := by
  constructor
  · exact ((empirical_cor_skip_iff_nansum (fun _ _ => some 0 : PixMap 1 1)
      ⟨fun _ _ => some 0, fun _ _ => some 0, some 9⟩ none
      ⟨fun _ _ => some 1, fun _ _ => true⟩ 0
      (NpArr.a2 (fun _ _ => none))).1 (by simp [nansumMap])).2.1
  · exact (empirical_cor_skip_iff_nansum (fun _ _ => some 1 : PixMap 1 1)
      ⟨fun _ _ => some 0, fun _ _ => some 0, some 9⟩ none
      ⟨fun _ _ => some 1, fun _ _ => true⟩ 0
      (NpArr.a2 (fun _ _ => none))).2
      (by norm_num [nansumMap])

/-- C5: for every epoch the returned maps satisfy
flattened = original − ramp − topography pointwise (NaN propagating
consistently), in both the estimation branch and the skip branch; and
moving a reference-window constant between the ramp and the flattened map
(ramp + cst, flattened − cst) preserves that identity. -/
theorem empirical_cor_flata_identity {nl nc : ℕ} (mapl : PixMap nl nc)
    (fit : RampFit nl nc) (refwin : Option RefWin) (R : RefRasters nl nc)
    (l : ℕ) (g : NpArr nl nc) :
    (∀ i j,
      (empirical_cor mapl fit refwin R l g).flata i j
        = osub (osub (mapl i j)
            ((empirical_cor mapl fit refwin R l g).ramp i j))
            ((empirical_cor mapl fit refwin R l g).topo i j))
    ∧ (∀ (losv rampv topov flatav : Option ℚ) (cst : ℚ),
        flatav = osub (osub losv rampv) topov →
        osub flatav (some cst)
          = osub (osub losv (oadd rampv (some cst))) topov) := by
  constructor
  · intro i j
    by_cases h : nansumMap mapl = 0
    · rw [empirical_cor_skip mapl fit refwin R l g h]
      cases hm : mapl i j with
      | none => simp [hm, osub]
      | some v => simp [hm, osub]
    · rw [empirical_cor_fit mapl fit refwin R l g h]
      cases hL : mapl i j <;> cases hR : fit.ramp i j <;>
        cases hT : fit.topo i j <;> simp [hL, hR, hT, osub]
  · intro losv rampv topov flatav cst hf
    subst hf
    cases losv <;> cases rampv <;> cases topov <;> simp [osub, oadd]
    ring

/-- Witness for empirical_cor_flata_identity on a concrete 1×1 epoch and a
concrete constant shift. -/
theorem empirical_cor_flata_identity_inst :
    ((empirical_cor (fun _ _ => some 3 : PixMap 1 1)
        ⟨fun _ _ => some 1, fun _ _ => some 1, some 2⟩ none
        ⟨fun _ _ => some 1, fun _ _ => true⟩ 0
        (NpArr.a2 (fun _ _ => none))).flata 0 0
      = osub (osub (some 3)
          ((empirical_cor (fun _ _ => some 3 : PixMap 1 1)
            ⟨fun _ _ => some 1, fun _ _ => some 1, some 2⟩ none
            ⟨fun _ _ => some 1, fun _ _ => true⟩ 0
            (NpArr.a2 (fun _ _ => none))).ramp 0 0))
          ((empirical_cor (fun _ _ => some 3 : PixMap 1 1)
            ⟨fun _ _ => some 1, fun _ _ => some 1, some 2⟩ none
            ⟨fun _ _ => some 1, fun _ _ => true⟩ 0
            (NpArr.a2 (fun _ _ => none))).topo 0 0))
    ∧ osub (some (2:ℚ)) (some 2)
      = osub (osub (some (4:ℚ)) (oadd (some 1) (some 2))) (some 1) := by
  constructor
  · exact (empirical_cor_flata_identity (fun _ _ => some 3 : PixMap 1 1)
      ⟨fun _ _ => some 1, fun _ _ => some 1, some 2⟩ none
      ⟨fun _ _ => some 1, fun _ _ => true⟩ 0
      (NpArr.a2 (fun _ _ => none))).1 0 0
  · exact (empirical_cor_flata_identity (fun _ _ => some 3 : PixMap 1 1)
      ⟨fun _ _ => some 1, fun _ _ => some 1, some 2⟩ none
      ⟨fun _ _ => some 1, fun _ _ => true⟩ 0
      (NpArr.a2 (fun _ _ => none))).2 (some 4) (some 1) (some 1) (some 2) 2
      (by norm_num [osub])

/-- C6 (code-bug evaluation): with a reference window configured, the
re-referencing try-block of empirical_cor fails on its first statement —
the local 2-D flattened map is indexed as a 3-D cube — and the bare except
suppresses the IndexError, so no constant is ever estimated or
subtracted: on a constant map of value 1 with a zero fit, the window
pixels of the returned flattened map read 1, not 0 as the claim
requires. -/
theorem refwindow_dead_code_eval :
    refWindowBlock 0 ⟨0, 2, 0, 2⟩
        (⟨fun _ _ => some 1, fun _ _ => true⟩ : RefRasters 3 3)
        (fun _ _ => some 0) (fun _ _ => some 1) (NpArr.a3 (fun _ _ _ => some 0))
      = Except.error NpErr.tooManyIndices
    ∧ (empirical_cor (fun _ _ => some 1 : PixMap 3 3)
        ⟨fun _ _ => some 0, fun _ _ => some 0, some 2⟩
        (some ⟨0, 2, 0, 2⟩) ⟨fun _ _ => some 1, fun _ _ => true⟩
        0 (NpArr.a3 (fun _ _ _ => some 0))).flata 1 1 = some 1
    ∧ (empirical_cor (fun _ _ => some 1 : PixMap 3 3)
        ⟨fun _ _ => some 0, fun _ _ => some 0, some 2⟩
        (some ⟨0, 2, 0, 2⟩) ⟨fun _ _ => some 1, fun _ _ => true⟩
        0 (NpArr.a3 (fun _ _ _ => some 0))).flata 1 1 ≠ some 0 := by
  have hn : nansumMap (fun _ _ => some 1 : PixMap 3 3) ≠ 0 := by
    norm_num [nansumMap, Fin.sum_univ_three]
  have hf := empirical_cor_fit (fun _ _ => some 1 : PixMap 3 3)
    ⟨fun _ _ => some 0, fun _ _ => some 0, some 2⟩
    (some ⟨0, 2, 0, 2⟩) ⟨fun _ _ => some 1, fun _ _ => true⟩
    0 (NpArr.a3 (fun _ _ _ => some 0)) hn
  refine ⟨refWindowBlock_err 0 ⟨0, 2, 0, 2⟩ _ _ _ _, ?_, ?_⟩
  · rw [hf]; norm_num [osub]
  · rw [hf]; norm_num [osub]

lemma diagonal_inv_q {k : ℕ} (v : Fin k → ℚ) (h : ∀ i, v i ≠ 0) :
    matInv (Matrix.diagonal v) = Matrix.diagonal (fun i => (v i)⁻¹) := by
  rw [matInv_eq_inv]
  apply Matrix.inv_eq_right_inv
  rw [Matrix.diagonal_mul_diagonal]
  rw [show (fun i => v i * (v i)⁻¹) = fun _ : Fin k => (1:ℚ) from
    funext (fun i => mul_inv_cancel₀ (h i))]
  exact Matrix.diagonal_one

/-- C4: on a successful decomposition whose diagonal inversion succeeds
(all singular values nonzero), invSVD returns exactly the truncated
pseudo-inverse least-squares solution, in which every singular value
strictly below cond has its reciprocal replaced by zero; when the
decomposition fails, or when a zero singular value makes the diagonal
inversion fail, it returns the plain least-squares fallback instead. -/
theorem invSVD_truncated_pinv {r c k : ℕ} (A : Matrix (Fin r) (Fin c) ℚ)
    (b : Fin r → ℚ) (cond : ℚ) (F : SVDFac r c k) (lstsqO : LstsqOracle) :
    ((∀ i, F.sv i ≠ 0) →
      invSVD A b cond (some ⟨k, F⟩) lstsqO = truncPinvSol F b cond)
    ∧ invSVD A b cond none lstsqO = lstsqO r c A b
    ∧ ((∃ i, F.sv i = 0) →
      invSVD A b cond (some ⟨k, F⟩) lstsqO = lstsqO r c A b) := by
  refine ⟨?_, rfl, ?_⟩
  · intro h
    have hdet : ¬ ((Matrix.diagonal F.sv).det = 0) := by
      rw [Matrix.det_diagonal]
      exact Finset.prod_ne_zero_iff.mpr (fun i _ => h i)
    have hmask : (Matrix.of fun i j =>
        if Matrix.diagonal F.sv i j < cond then 0
        else matInv (Matrix.diagonal F.sv) i j)
        = Matrix.diagonal (fun i => if F.sv i < cond then 0 else (F.sv i)⁻¹) := by
      rw [diagonal_inv_q F.sv h]
      ext i j
      by_cases hij : i = j
      · subst hij
        simp [Matrix.diagonal_apply_eq, Matrix.of_apply]
      · simp [Matrix.diagonal_apply_ne _ hij, Matrix.of_apply, ite_self]
    simp only [invSVD]
    dsimp only
    rw [if_neg hdet, hmask]
    funext j
    rw [show (Matrix.diagonal fun i => if F.sv i < cond then 0
        else (F.sv i)⁻¹).mulVec (F.U.transpose.mulVec b)
      = fun i => (if F.sv i < cond then 0 else (F.sv i)⁻¹) *
          (F.U.transpose.mulVec b) i from
      funext (fun i => Matrix.mulVec_diagonal _ _ i)]
    simp [truncPinvSol, Matrix.mulVec, Matrix.dotProduct, mul_ite, mul_zero]
  · rintro ⟨i0, hi0⟩
    have hdet : (Matrix.diagonal F.sv).det = 0 := by
      rw [Matrix.det_diagonal]
      exact Finset.prod_eq_zero (Finset.mem_univ i0) hi0
    simp only [invSVD]
    dsimp only
    rw [if_pos hdet]

/-- Witness for invSVD_truncated_pinv on a 1×1 system, in both the
successful-inversion case (singular value 2) and the zero-singular-value
fallback case. -/
theorem invSVD_truncated_pinv_inst :
    invSVD (fun _ _ => 2 : Matrix (Fin 1) (Fin 1) ℚ) (fun _ => 4) 1
        (some ⟨1, ⟨fun _ _ => 1, fun _ => 2, fun _ _ => 1⟩⟩)
        (fun _ _ _ _ _ => 0)
      = truncPinvSol (⟨fun _ _ => 1, fun _ => 2, fun _ _ => 1⟩ : SVDFac 1 1 1)
          (fun _ => 4) 1
    ∧ invSVD (fun _ _ => 2 : Matrix (Fin 1) (Fin 1) ℚ) (fun _ => 4) 1
        (some ⟨1, ⟨fun _ _ => 1, fun _ => 0, fun _ _ => 1⟩⟩)
        (fun _ _ _ _ _ => 0)
      = (fun _ _ _ _ _ => 0 : LstsqOracle) 1 1 (fun _ _ => 2) (fun _ => 4) := by
  constructor
  · exact (invSVD_truncated_pinv (fun _ _ => 2) (fun _ => 4) 1
      ⟨fun _ _ => 1, fun _ => 2, fun _ _ => 1⟩ (fun _ _ _ _ _ => 0)).1
      (fun _ => by norm_num)
  · exact (invSVD_truncated_pinv (fun _ _ => 2) (fun _ => 4) 1
      ⟨fun _ _ => 1, fun _ => 0, fun _ _ => 1⟩ (fun _ _ _ _ _ => 0)).2.2
      ⟨0, rfl⟩

lemma sqrt_four_real : Real.sqrt 4 = 2 := by
  rw [show (4:ℝ) = 2 ^ 2 by norm_num, Real.sqrt_sq (by norm_num : (0:ℝ) ≤ 2)]

/-- C9 counterexample: at cos = 1, sin = 0, sigcos = 1, sigsin = 2 the
phase uncertainty computed by the code, (σc|sin|+σs|cos|)/(σc²+σs²) = 2/5,
differs from the standard first-order propagation
sqrt(sin²σc²+cos²σs²)/(cos²+sin²) = 2; and the amplitude uncertainty
computed by the code, sqrt(σc²+σs²) = sqrt 5, differs from the standard
sqrt(cos²σc²+sin²σs²)/sqrt(cos²+sin²) = 1. -/
theorem seasonal_sigma_not_std_propagation :
    (seasonalMaps (fun _ _ => (1:ℝ)) (fun _ _ => 0) (fun _ _ => 1)
        (fun _ _ => 2)).2.2.2 (0 : Fin 1) (0 : Fin 1) ≠ sigphiStd 1 0 1 2
    ∧ (seasonalMaps (fun _ _ => (1:ℝ)) (fun _ _ => 0) (fun _ _ => 1)
        (fun _ _ => 2)).2.2.1 (0 : Fin 1) (0 : Fin 1) ≠ sigampStd 1 0 1 2 := by
  constructor
  · have e1 : (seasonalMaps (fun _ _ => (1:ℝ)) (fun _ _ => 0) (fun _ _ => 1)
        (fun _ _ => 2)).2.2.2 (0 : Fin 1) (0 : Fin 1) = 2/5 := by
      simp [seasonalMaps]
      norm_num
    have e2 : sigphiStd 1 0 1 2 = 2 := by
      rw [sigphiStd]
      norm_num [sqrt_four_real]
    rw [e1, e2]
    norm_num
  · have e3 : (seasonalMaps (fun _ _ => (1:ℝ)) (fun _ _ => 0) (fun _ _ => 1)
        (fun _ _ => 2)).2.2.1 (0 : Fin 1) (0 : Fin 1) = Real.sqrt 5 := by
      simp [seasonalMaps]
      norm_num
    have e4 : sigampStd 1 0 1 2 = 1 := by
      rw [sigampStd]
      norm_num
    rw [e3, e4]
    intro hEq
    have h5 : Real.sqrt 5 ^ 2 = 5 := Real.sq_sqrt (by norm_num)
    rw [hEq] at h5
    norm_num at h5

/-- C9 (amended): at every pixel the amplitude and phase maps satisfy
amp = sqrt(cos²+sin²) (equivalently amp ≥ 0 with amp² = cos²+sin²) and
phase = arctan2(sin, cos); the accompanying uncertainty maps are
sigamp = sqrt(σc²+σs²) and sigphi = (σc|sin|+σs|cos|)/(σc²+σs²) — the
code-specific combinations, which are not the standard first-order error
propagation. -/
theorem seasonal_amp_phase_formulas {nl nc : ℕ}
    (cosm sinm sigcosm sigsinm : Fin nl → Fin nc → ℝ)
    (i : Fin nl) (j : Fin nc) :
    (seasonalMaps cosm sinm sigcosm sigsinm).1 i j
        = Real.sqrt ((cosm i j) ^ 2 + (sinm i j) ^ 2)
    ∧ 0 ≤ (seasonalMaps cosm sinm sigcosm sigsinm).1 i j
    ∧ ((seasonalMaps cosm sinm sigcosm sigsinm).1 i j) ^ 2
        = (cosm i j) ^ 2 + (sinm i j) ^ 2
    ∧ (seasonalMaps cosm sinm sigcosm sigsinm).2.1 i j
        = atan2 (sinm i j) (cosm i j)
    ∧ (seasonalMaps cosm sinm sigcosm sigsinm).2.2.1 i j
        = Real.sqrt ((sigcosm i j) ^ 2 + (sigsinm i j) ^ 2)
    ∧ (seasonalMaps cosm sinm sigcosm sigsinm).2.2.2 i j
        = (sigcosm i j * |sinm i j| + sigsinm i j * |cosm i j|) /
          ((sigcosm i j) ^ 2 + (sigsinm i j) ^ 2) :=
  ⟨rfl, Real.sqrt_nonneg _, Real.sq_sqrt (by positivity), rfl, rfl, rfl⟩

lemma except_error_bind {a b : Type} (e : NpErr) (f : a → Except NpErr b) :
    (Except.error e >>= f) = Except.error e := rfl

lemma except_ok_bind {a b : Type} (x : a) (f : a → Except NpErr b) :
    (Except.ok x >>= f) = f x := rfl

lemma boundsStepE_ok (pos : List ℚ) (ico ipo : List ℕ) (minit : ℕ → ℚ)
    (mm : (ℕ → Option ℚ) × (ℕ → Option ℚ)) (i : ℕ)
    (hi : i < ico.length) (hp : i < pos.length) (hq : i < ipo.length) :
    boundsStepE pos ico ipo minit mm i
      = Except.ok (boundsStep (pos.get ⟨i, hp⟩) (ipo.get ⟨i, hq⟩)
          (ico.get ⟨i, hi⟩) minit mm) := by
  unfold boundsStepE listGetE
  rw [dif_pos hp, dif_pos hq, dif_pos hi]
  rfl

lemma boundsStepE_err (pos : List ℚ) (ico ipo : List ℕ) (minit : ℕ → ℚ)
    (mm : (ℕ → Option ℚ) × (ℕ → Option ℚ)) (i : ℕ)
    (h : ¬ (i < pos.length ∧ i < ipo.length)) :
    boundsStepE pos ico ipo minit mm i = Except.error NpErr.indexOutOfRange := by
  unfold boundsStepE listGetE
  by_cases hp : i < pos.length
  · rw [dif_pos hp, dif_neg (fun hq => h ⟨hp, hq⟩)]
    rfl
  · rw [dif_neg hp]
    rfl

lemma foldBounds_ok_iff (pos : List ℚ) (ico ipo : List ℕ) (minit : ℕ → ℚ) :
    ∀ (n : ℕ), n ≤ ico.length →
      ∀ init : (ℕ → Option ℚ) × (ℕ → Option ℚ),
      ((∃ mm, (List.range n).foldlM (boundsStepE pos ico ipo minit) init
          = Except.ok mm)
        ↔ (n ≤ pos.length ∧ n ≤ ipo.length)) := by
  intro n
  induction n with
  | zero =>
      intro _ init
      exact ⟨fun _ => ⟨Nat.zero_le _, Nat.zero_le _⟩, fun _ => ⟨init, rfl⟩⟩
  | succ n ih =>
      intro hn init
      rw [List.range_succ, List.foldlM_append]
      have ihn := ih (Nat.le_of_succ_le hn) init
      cases hf : (List.range n).foldlM (boundsStepE pos ico ipo minit) init with
      | error e =>
          have hne : ¬ (n ≤ pos.length ∧ n ≤ ipo.length) := by
            intro hc
            obtain ⟨mm, hmm⟩ := ihn.mpr hc
            rw [hf] at hmm
            cases hmm
          rw [except_error_bind]
          constructor
          · rintro ⟨mm, hmm⟩
            cases hmm
          · intro hc
            exact absurd ⟨Nat.le_of_succ_le hc.1, Nat.le_of_succ_le hc.2⟩ hne
      | ok mid =>
          rw [except_ok_bind]
          simp only [List.foldlM_cons, List.foldlM_nil]
          by_cases hpq : n < pos.length ∧ n < ipo.length
          · rw [boundsStepE_ok pos ico ipo minit mid n hn hpq.1 hpq.2,
              except_ok_bind]
            constructor
            · intro _
              exact ⟨hpq.1, hpq.2⟩
            · intro _
              exact ⟨_, rfl⟩
          · rw [boundsStepE_err pos ico ipo minit mid n hpq, except_error_bind]
            constructor
            · rintro ⟨mm, hmm⟩
              cases hmm
            · intro hc
              exact absurd ⟨hc.1, hc.2⟩ hpq

lemma buildBounds_ok_iff (pos : List ℚ) (ico ipo : List ℕ) (minit : ℕ → ℚ) :
    (∃ mm, buildBounds pos ico ipo minit = Except.ok mm)
      ↔ (ico.length ≤ pos.length ∧ ico.length ≤ ipo.length) := by
  unfold buildBounds
  exact foldBounds_ok_iff pos ico ipo minit ico.length le_rfl _

lemma except_bind_pure_ok {a b : Type} (m : Except NpErr a) (f : a → b) :
    (∃ y, (m >>= fun x => pure (f x)) = Except.ok y)
      ↔ (∃ x, m = Except.ok x) := by
  cases m with
  | error e =>
      constructor
      · rintro ⟨y, hy⟩; cases hy
      · rintro ⟨x, hx⟩; cases hx
  | ok x =>
      exact ⟨fun _ => ⟨x, rfl⟩, fun _ => ⟨f x, rfl⟩⟩

lemma except_bind_pure_eq_ok {a b : Type} (m : Except NpErr a) (f : a → b)
    (y : b) :
    ((m >>= fun x => pure (f x)) = Except.ok y)
      ↔ (∃ x, m = Except.ok x ∧ y = f x) := by
  cases m with
  | error e =>
      constructor
      · rintro hy; cases hy
      · rintro ⟨x, hx, _⟩; cases hx
  | ok x =>
      constructor
      · intro hy
        injection hy with hy
        exact ⟨x, rfl, hy.symm⟩
      · rintro ⟨x2, hx2, hyx⟩
        injection hx2 with hx2
        subst hx2
        subst hyx
        rfl

lemma except_bind_k_ok {a b : Type} (m : Except NpErr a)
    (k : a → Except NpErr b) (hk : ∀ x, ∃ y, k x = Except.ok y) :
    (∃ y, (m >>= k) = Except.ok y) ↔ (∃ x, m = Except.ok x) := by
  cases m with
  | error e =>
      constructor
      · rintro ⟨y, hy⟩; cases hy
      · rintro ⟨x, hx⟩; cases hx
  | ok x =>
      rw [except_ok_bind]
      exact ⟨fun _ => ⟨x, rfl⟩, fun _ => hk x⟩

lemma except_bind_eq_ok_of {a b : Type} (m : Except NpErr a)
    (k : a → Except NpErr b) (f : a → b) (hk : ∀ x, k x = Except.ok (f x))
    (y : b) (h : (m >>= k) = Except.ok y) : ∃ x, y = f x := by
  cases m with
  | error e => cases h
  | ok x =>
      rw [except_ok_bind, hk x] at h
      injection h with h
      exact ⟨x, h.symm⟩

/-- C3 (amended): consInvert fails exactly when A's row count differs from
len(b) or, with ineq on, when the coseismic index list is longer than the
postseismic configuration lists (the bound loop then reads pos[i] or
indexpofull[i] out of range — reachable because the source checks the two
list lengths only when the postseismic list is nonempty); otherwise it
returns a (solution, sigma) pair, and whenever AᵀA is singular the sigma
component is all NaN rather than the call failing. -/
theorem consInvert_error_characterization {r c : ℕ}
    (A : Matrix (Fin r) (Fin c) ℚ) (b : List ℚ) (sigmad : Fin r → ℚ)
    (ineq : Bool) (cond : ℚ) (gl : CoPoGlobals) (svdO : SvdOracle)
    (lstsqO : LstsqOracle) (slsqpO : SlsqpOracle) (sqrtO : ℚ → Option ℚ) :
    ((∃ out, consInvert A b sigmad ineq cond gl svdO lstsqO slsqpO sqrtO
        = Except.ok out)
      ↔ (r = b.length ∧ (ineq = true →
          gl.indexco.length ≤ gl.pos.length
          ∧ gl.indexco.length ≤ gl.indexpofull.length)))
    ∧ ((A.transpose * A).det = 0 →
        ∀ out, consInvert A b sigmad ineq cond gl svdO lstsqO slsqpO sqrtO
          = Except.ok out → ∀ j, out.2 j = none) := by
  constructor
  · by_cases hdim : r = b.length
    · have hcond : ¬ (r ≠ b.length) := not_ne_iff.mpr hdim
      unfold consInvert
      rw [dif_neg hcond]
      cases ineq with
      | false =>
          rw [if_pos rfl]
          rw [except_bind_pure_ok]
          constructor
          · intro _
            exact ⟨hdim, fun h => Bool.noConfusion h⟩
          · intro _
            exact ⟨_, rfl⟩
      | true =>
          rw [if_neg (fun h => Bool.noConfusion h)]
          rw [except_bind_k_ok, buildBounds_ok_iff]
          · constructor
            · intro h
              exact ⟨hdim, fun _ => h⟩
            · intro h
              exact h.2 rfl
          · intro x
            exact ⟨_, rfl⟩
    · unfold consInvert
      rw [dif_pos hdim]
      constructor
      · rintro ⟨out, hout⟩
        cases hout
      · rintro ⟨h, _⟩
        exact absurd h hdim
  · intro hAtA out hout j
    by_cases hdim : r = b.length
    · have hcond : ¬ (r ≠ b.length) := not_ne_iff.mpr hdim
      unfold consInvert at hout
      rw [dif_neg hcond] at hout
      have hsig : ¬ ((A.transpose * A).det ≠ 0 ∧ r ≠ c) := fun hc => hc.1 hAtA
      cases ineq with
      | false =>
          rw [if_pos rfl] at hout
          rw [except_bind_pure_eq_ok] at hout
          obtain ⟨x, _, hyx⟩ := hout
          subst hyx
          rw [if_neg hsig]
      | true =>
          rw [if_neg (fun h => Bool.noConfusion h)] at hout
          obtain ⟨x, hyx⟩ := except_bind_eq_ok_of _ _ _ (fun x => rfl) out hout
          subst hyx
          rw [if_neg hsig]
    · unfold consInvert at hout
      rw [dif_pos hdim] at hout
      cases hout

/-- Witness for consInvert_error_characterization: a 1×1 zero system with
matching dimensions returns a pair, and its singular AᵀA is covered by
the all-NaN-sigma conjunct. -/
theorem consInvert_error_characterization_inst :
    (∃ out, consInvert (0 : Matrix (Fin 1) (Fin 1) ℚ) [(0:ℚ)]
        (fun _ => 1) false 1 ⟨[], [], [], []⟩ (fun _ _ _ => none)
        (fun _ _ _ _ _ => 0) (fun _ _ _ _ _ _ _ _ => 0) (fun q => some q)
      = Except.ok out)
    ∧ (∀ out, consInvert (0 : Matrix (Fin 1) (Fin 1) ℚ) [(0:ℚ)]
        (fun _ => 1) false 1 ⟨[], [], [], []⟩ (fun _ _ _ => none)
        (fun _ _ _ _ _ => 0) (fun _ _ _ _ _ _ _ _ => 0) (fun q => some q)
      = Except.ok out → ∀ j, out.2 j = none) := by
  have hdet : ((0 : Matrix (Fin 1) (Fin 1) ℚ).transpose
      * (0 : Matrix (Fin 1) (Fin 1) ℚ)).det = 0 := by
    simp
  constructor
  · exact (consInvert_error_characterization
      (0 : Matrix (Fin 1) (Fin 1) ℚ) [(0:ℚ)] (fun _ => 1) false 1
      ⟨[], [], [], []⟩ (fun _ _ _ => none) (fun _ _ _ _ _ => 0)
      (fun _ _ _ _ _ _ _ _ => 0) (fun q => some q)).1.mpr
      ⟨rfl, fun h => Bool.noConfusion h⟩
  · exact (consInvert_error_characterization
      (0 : Matrix (Fin 1) (Fin 1) ℚ) [(0:ℚ)] (fun _ => 1) false 1
      ⟨[], [], [], []⟩ (fun _ _ _ => none) (fun _ _ _ _ _ => 0)
      (fun _ _ _ _ _ _ _ _ => 0) (fun q => some q)).2 hdet

/-- C3 counterexample: with ineq on, one coseismic index configured but an
empty postseismic list (the source skips the list-length check when pos is
empty), consInvert raises IndexError reading pos[0] although A has exactly
len(b) rows — the claimed raises-iff-dimension-mismatch equivalence
fails. -/
theorem consInvert_index_error_reachable :
    (1 : ℕ) = [(1:ℚ)].length
    ∧ consInvert (fun _ _ => 1 : Matrix (Fin 1) (Fin 2) ℚ) [(1:ℚ)]
        (fun _ => 1) true 1 ⟨[], [], [1], []⟩ (fun _ _ _ => none)
        (fun _ _ _ _ _ => 0) (fun _ _ _ _ _ _ _ _ => 0) (fun q => some q)
      = Except.error NpErr.indexOutOfRange := ⟨rfl, rfl⟩

lemma getD_append_self {α : Type} (l : List α) (x d : α) :
    (l ++ [x]).getD l.length d = x := by
  rw [List.getD_append_right _ _ _ _ le_rfl]
  simp

lemma cntPos_append_le (l : List ℚ) (a : ℚ) (i : ℕ) (h : i ≤ l.length) :
    cntPos (l ++ [a]) i = cntPos l i := by
  unfold cntPos
  rw [List.take_append_of_le_length h]

lemma cntPos_succ (l : List ℚ) (i : ℕ) (h : i < l.length) :
    cntPos l (i + 1) = cntPos l i + (if 0 < l.getD i 0 then 1 else 0) := by
  unfold cntPos
  rw [List.take_succ, List.getElem?_eq_getElem h]
  rw [show (some l[i]).toList = [l[i]] from rfl]
  rw [List.filter_append]
  rw [List.getD_eq_getElem l 0 h]
  by_cases ha : 0 < l[i]
  · rw [if_pos ha]
    simp [List.filter, ha]
  · rw [if_neg ha]
    simp [List.filter, ha]

lemma cntPos_mono (l : List ℚ) (i j : ℕ) (h : i ≤ j) :
    cntPos l i ≤ cntPos l j := by
  unfold cntPos
  have hpre : l.take i <+: l.take j := by
    rw [show l.take i = (l.take j).take i from by
      rw [List.take_take, min_eq_left h]]
    exact List.take_prefix i (l.take j)
  exact List.IsPrefix.length_le (List.IsPrefix.filter _ hpre)

lemma cntPos_lt_of_enabled (l : List ℚ) (i j : ℕ) (hij : i < j)
    (hi : i < l.length) (ha : 0 < l.getD i 0) :
    cntPos l i < cntPos l j := by
  have h1 : cntPos l (i + 1) = cntPos l i + 1 := by
    rw [cntPos_succ l i hi, if_pos ha]
  have h2 : cntPos l (i + 1) ≤ cntPos l j := cntPos_mono l _ _ hij
  omega

lemma buildIndexco_spec (s n : ℕ) :
    (buildIndexco s n).1 = s + n ∧ (buildIndexco s n).2.length = n
    ∧ ∀ i, i < n → (buildIndexco s n).2.getD i 0 = s + i := by
  induction n with
  | zero => exact ⟨rfl, rfl, fun i hi => absurd hi (Nat.not_lt_zero i)⟩
  | succ n ih =>
      obtain ⟨h1, h2, h3⟩ := ih
      unfold buildIndexco at h1 h2 h3 ⊢
      rw [List.range_succ, List.foldl_append]
      simp only [List.foldl_cons, List.foldl_nil]
      refine ⟨by rw [h1]; ring, by simp [h2], ?_⟩
      intro i hi
      by_cases hin : i < n
      · rw [List.getD_append _ _ _ _ (by rw [h2]; exact hin)]
        exact h3 i hin
      · have hieq : i = n := by omega
        subst hieq
        rw [List.getD_append_right _ _ _ _ (by rw [h2])]
        simp [h2, h1]

lemma buildIndexpo_spec (s : ℕ) (l : List ℚ) :
    (buildIndexpo s l).1 = s + cntPos l l.length
    ∧ (buildIndexpo s l).2.2.length = l.length
    ∧ ∀ i, i < l.length →
        (buildIndexpo s l).2.2.getD i 0
          = if 0 < l.getD i 0 then s + cntPos l i else 0 := by
  induction l using List.reverseRecOn with
  | nil =>
      refine ⟨by simp [buildIndexpo, cntPos], rfl,
        fun i hi => absurd hi (Nat.not_lt_zero i)⟩
  | append_singleton l a ih =>
      obtain ⟨h1, h2, h3⟩ := ih
      unfold buildIndexpo at h1 h2 h3 ⊢
      rw [List.foldl_append]
      simp only [List.foldl_cons, List.foldl_nil]
      have hlen : (l ++ [a]).length = l.length + 1 := by simp
      have hcfull : cntPos (l ++ [a]) (l.length + 1)
          = cntPos l l.length + (if 0 < a then 1 else 0) := by
        have := cntPos_succ (l ++ [a]) l.length (by simp)
        rw [cntPos_append_le l a l.length le_rfl] at this
        rw [this, getD_append_self]
      by_cases ha : a > 0
      · rw [if_pos ha]
        refine ⟨?_, by simp [h2], ?_⟩
        · rw [h1, hlen, hcfull, if_pos ha]
          ring
        · intro i hi
          by_cases hin : i < l.length
          · rw [List.getD_append _ _ _ _ (by rw [h2]; exact hin),
              List.getD_append _ _ _ _ hin, cntPos_append_le l a i
                (Nat.le_of_lt hin)]
            exact h3 i hin
          · have hieq : i = l.length := by
              rw [hlen] at hi; omega
            subst hieq
            rw [List.getD_append_right _ _ _ _ (by rw [h2])]
            rw [getD_append_self, cntPos_append_le l a l.length le_rfl]
            simp [h2, if_pos ha, h1]
      · rw [if_neg ha]
        refine ⟨?_, by simp [h2], ?_⟩
        · rw [h1, hlen, hcfull, if_neg ha]
          omega
        · intro i hi
          by_cases hin : i < l.length
          · rw [List.getD_append _ _ _ _ (by rw [h2]; exact hin),
              List.getD_append _ _ _ _ hin, cntPos_append_le l a i
                (Nat.le_of_lt hin)]
            exact h3 i hin
          · have hieq : i = l.length := by
              rw [hlen] at hi; omega
            subst hieq
            rw [List.getD_append_right _ _ _ _ (by rw [h2])]
            rw [getD_append_self]
            have hna : ¬ (0 < a) := ha
            simp [h2, hna]

lemma boundsStep_ne (tc : ℚ) (po co : ℕ) (minit : ℕ → ℚ)
    (mm : (ℕ → Option ℚ) × (ℕ → Option ℚ)) (t : ℕ)
    (hco : t ≠ co) (hpo : t ≠ po) :
    (boundsStep tc po co minit mm).1 t = mm.1 t
    ∧ (boundsStep tc po co minit mm).2 t = mm.2 t := by
  unfold boundsStep
  refine ⟨?_, ?_⟩ <;> (split_ifs <;> simp [hco, hpo])

lemma boundsStep_disabled (tc : ℚ) (po co : ℕ) (minit : ℕ → ℚ)
    (mm : (ℕ → Option ℚ) × (ℕ → Option ℚ)) (h : ¬ (0 < tc)) :
    boundsStep tc po co minit mm = mm := by
  have hn1 : ¬ (tc > 0 ∧ minit co > 0) := fun hc => h hc.1
  have hn2 : ¬ (tc > 0 ∧ minit co < 0) := fun hc => h hc.1
  simp [boundsStep, hn1, hn2]

lemma boundsStep_write_pos (tc : ℚ) (po co : ℕ) (minit : ℕ → ℚ)
    (mm : (ℕ → Option ℚ) × (ℕ → Option ℚ))
    (hpc : po ≠ co) (htc : 0 < tc) (hm : 0 < minit co) :
    (boundsStep tc po co minit mm).1 co = some 0
    ∧ (boundsStep tc po co minit mm).2 co = some (minit co)
    ∧ (boundsStep tc po co minit mm).1 po = some 0
    ∧ (boundsStep tc po co minit mm).2 po = none := by
  have hnm : ¬ (minit co < 0) := not_lt.mpr (le_of_lt hm)
  simp [boundsStep, htc, hm, hnm, hpc]

lemma boundsStep_write_neg (tc : ℚ) (po co : ℕ) (minit : ℕ → ℚ)
    (mm : (ℕ → Option ℚ) × (ℕ → Option ℚ))
    (hpc : po ≠ co) (htc : 0 < tc) (hm : minit co < 0) :
    (boundsStep tc po co minit mm).1 co = some (minit co)
    ∧ (boundsStep tc po co minit mm).2 co = some 0
    ∧ (boundsStep tc po co minit mm).1 po = none
    ∧ (boundsStep tc po co minit mm).2 po = some 0 := by
  have hnm : ¬ (0 < minit co) := not_lt.mpr (le_of_lt hm)
  simp [boundsStep, htc, hm, hnm, hpc]

lemma foldl_bounds_preserve (pos : List ℚ) (ico ipo : List ℕ)
    (minit : ℕ → ℚ) (t : ℕ) :
    ∀ n : ℕ, (∀ i, i < n → ∀ mm : (ℕ → Option ℚ) × (ℕ → Option ℚ),
        (boundsStep (pos.getD i 0) (ipo.getD i 0) (ico.getD i 0) minit mm).1 t
            = mm.1 t
        ∧ (boundsStep (pos.getD i 0) (ipo.getD i 0) (ico.getD i 0) minit mm).2 t
            = mm.2 t) →
      ∀ init,
        ((List.range n).foldl (fun mm i =>
          boundsStep (pos.getD i 0) (ipo.getD i 0) (ico.getD i 0) minit mm)
          init).1 t = init.1 t
        ∧ ((List.range n).foldl (fun mm i =>
          boundsStep (pos.getD i 0) (ipo.getD i 0) (ico.getD i 0) minit mm)
          init).2 t = init.2 t := by
  intro n
  induction n with
  | zero => intro _ init; exact ⟨rfl, rfl⟩
  | succ n ih =>
      intro h init
      rw [List.range_succ, List.foldl_append]
      simp only [List.foldl_cons, List.foldl_nil]
      have hstep := h n (by omega)
      have hfold := ih (fun i hi2 mm => h i (by omega) mm) init
      exact ⟨((hstep _).1).trans hfold.1, ((hstep _).2).trans hfold.2⟩

lemma foldl_bounds_write (pos : List ℚ) (ico ipo : List ℕ)
    (minit : ℕ → ℚ) (t : ℕ) (W1 W2 : Option ℚ) :
    ∀ n i0 : ℕ, i0 < n →
      (∀ i, i < n → i ≠ i0 → ∀ mm : (ℕ → Option ℚ) × (ℕ → Option ℚ),
        (boundsStep (pos.getD i 0) (ipo.getD i 0) (ico.getD i 0) minit mm).1 t
            = mm.1 t
        ∧ (boundsStep (pos.getD i 0) (ipo.getD i 0) (ico.getD i 0) minit mm).2 t
            = mm.2 t) →
      (∀ mm : (ℕ → Option ℚ) × (ℕ → Option ℚ),
        (boundsStep (pos.getD i0 0) (ipo.getD i0 0) (ico.getD i0 0) minit mm).1 t
            = W1
        ∧ (boundsStep (pos.getD i0 0) (ipo.getD i0 0) (ico.getD i0 0) minit mm).2 t
            = W2) →
      ∀ init,
        ((List.range n).foldl (fun mm i =>
          boundsStep (pos.getD i 0) (ipo.getD i 0) (ico.getD i 0) minit mm)
          init).1 t = W1
        ∧ ((List.range n).foldl (fun mm i =>
          boundsStep (pos.getD i 0) (ipo.getD i 0) (ico.getD i 0) minit mm)
          init).2 t = W2 := by
  intro n
  induction n with
  | zero => intro i0 h; omega
  | succ n ih =>
      intro i0 hi0 hothers hwrite init
      rw [List.range_succ, List.foldl_append]
      simp only [List.foldl_cons, List.foldl_nil]
      by_cases hlast : i0 = n
      · subst hlast
        exact hwrite _
      · have hpres := hothers n (by omega) (fun h => hlast h.symm)
        have hfold := ih i0 (by omega)
          (fun i hi2 hne mm => hothers i (by omega) hne mm) hwrite init
        exact ⟨((hpres _).1).trans hfold.1, ((hpres _).2).trans hfold.2⟩

lemma foldBounds_eval (pos : List ℚ) (ico ipo : List ℕ) (minit : ℕ → ℚ) :
    ∀ n : ℕ, n ≤ ico.length → n ≤ pos.length → n ≤ ipo.length →
      ∀ init : (ℕ → Option ℚ) × (ℕ → Option ℚ),
      (List.range n).foldlM (boundsStepE pos ico ipo minit) init
        = Except.ok ((List.range n).foldl (fun mm i =>
            boundsStep (pos.getD i 0) (ipo.getD i 0) (ico.getD i 0) minit mm)
            init) := by
  intro n
  induction n with
  | zero => intro _ _ _ init; rfl
  | succ n ih =>
      intro h1 h2 h3 init
      rw [List.range_succ, List.foldlM_append, List.foldl_append]
      rw [ih (by omega) (by omega) (by omega) init, except_ok_bind]
      simp only [List.foldlM_cons, List.foldlM_nil, List.foldl_cons,
        List.foldl_nil]
      rw [boundsStepE_ok pos ico ipo minit _ n (by omega) (by omega) (by omega)]
      rw [except_ok_bind]
      rw [List.getD_eq_getElem pos 0 (by omega),
        List.getD_eq_getElem ipo 0 (by omega),
        List.getD_eq_getElem ico 0 (by omega)]
      rfl

/-- C1: in consInvert with the inequality option enabled, for every
coseismic/postseismic pair i the derived (mmin, mmax) bounds passed to the
constrained refinement satisfy: when the characteristic time pos[i] is
positive and the prior (postseismic-free) solution has a positive
coseismic step, the postseismic amplitude is bounded to [0, +inf) and the
coseismic parameter to [0, prior]; when that prior step is negative, the
postseismic amplitude is bounded to (-inf, 0] and the coseismic parameter
to [prior, 0]; and when pos[i] is the disabled sentinel (None parsed
as -1, or 0), no bound is applied to the pair, so its coseismic parameter
stays unbounded.  indexco/indexpofull are the column registries built at
source lines 891-909, the basis holding at least the reference function
before the coseismic block (startco ≥ 1). -/
theorem consInvert_ineq_bounds_pairs (startco : ℕ) (hsc : 1 ≤ startco)
    (posL : List ℚ) (minit : ℕ → ℚ) (i : ℕ) (hi : i < posL.length)
    (B : (ℕ → Option ℚ) × (ℕ → Option ℚ))
    (hB : buildBounds posL (buildIndexco startco posL.length).2
      (buildIndexpo (startco + posL.length) posL).2.2 minit = Except.ok B) :
    (0 < posL.getD i 0 →
      0 < minit ((buildIndexco startco posL.length).2.getD i 0) →
      B.1 ((buildIndexpo (startco + posL.length) posL).2.2.getD i 0) = some 0
      ∧ B.2 ((buildIndexpo (startco + posL.length) posL).2.2.getD i 0) = none
      ∧ B.1 ((buildIndexco startco posL.length).2.getD i 0) = some 0
      ∧ B.2 ((buildIndexco startco posL.length).2.getD i 0)
          = some (minit ((buildIndexco startco posL.length).2.getD i 0)))
    ∧ (0 < posL.getD i 0 →
      minit ((buildIndexco startco posL.length).2.getD i 0) < 0 →
      B.1 ((buildIndexpo (startco + posL.length) posL).2.2.getD i 0) = none
      ∧ B.2 ((buildIndexpo (startco + posL.length) posL).2.2.getD i 0) = some 0
      ∧ B.1 ((buildIndexco startco posL.length).2.getD i 0)
          = some (minit ((buildIndexco startco posL.length).2.getD i 0))
      ∧ B.2 ((buildIndexco startco posL.length).2.getD i 0) = some 0)
    ∧ (posL.getD i 0 ≤ 0 →
      B.1 ((buildIndexco startco posL.length).2.getD i 0) = none
      ∧ B.2 ((buildIndexco startco posL.length).2.getD i 0) = none) := by
  obtain ⟨-, hc2, hc3⟩ := buildIndexco_spec startco posL.length
  obtain ⟨-, hp2, hp3⟩ := buildIndexpo_spec (startco + posL.length) posL
  set ico := (buildIndexco startco posL.length).2 with hico
  set ipoL := (buildIndexpo (startco + posL.length) posL).2.2 with hipoL
  have heval := foldBounds_eval posL ico ipoL minit ico.length le_rfl
    (by rw [hc2]) (by rw [hc2, hp2]) (fun _ => none, fun _ => none)
  unfold buildBounds at hB
  rw [heval] at hB
  injection hB with hB
  have hin : i < ico.length := by rw [hc2]; exact hi
  have hco_i := hc3 i hi
  have hothersCo : ∀ j, j < ico.length → j ≠ i →
      ∀ mm : (ℕ → Option ℚ) × (ℕ → Option ℚ),
      (boundsStep (posL.getD j 0) (ipoL.getD j 0) (ico.getD j 0) minit mm).1
          (ico.getD i 0) = mm.1 (ico.getD i 0)
      ∧ (boundsStep (posL.getD j 0) (ipoL.getD j 0) (ico.getD j 0) minit mm).2
          (ico.getD i 0) = mm.2 (ico.getD i 0) := by
    intro j hj hne mm
    have hjn : j < posL.length := by rw [hc2] at hj; exact hj
    apply boundsStep_ne
    · rw [hco_i, hc3 j hjn]
      omega
    · rw [hco_i]
      by_cases hpj : 0 < posL.getD j 0
      · rw [hp3 j hjn, if_pos hpj]
        omega
      · rw [hp3 j hjn, if_neg hpj]
        omega
  refine ⟨?_, ?_, ?_⟩
  · intro htc hm
    have hpo_i : ipoL.getD i 0 = startco + posL.length + cntPos posL i := by
      rw [hp3 i hi, if_pos htc]
    have hpc : ipoL.getD i 0 ≠ ico.getD i 0 := by
      rw [hpo_i, hco_i]
      omega
    have hothersPo : ∀ j, j < ico.length → j ≠ i →
        ∀ mm : (ℕ → Option ℚ) × (ℕ → Option ℚ),
        (boundsStep (posL.getD j 0) (ipoL.getD j 0) (ico.getD j 0) minit mm).1
            (ipoL.getD i 0) = mm.1 (ipoL.getD i 0)
        ∧ (boundsStep (posL.getD j 0) (ipoL.getD j 0) (ico.getD j 0) minit mm).2
            (ipoL.getD i 0) = mm.2 (ipoL.getD i 0) := by
      intro j hj hne mm
      have hjn : j < posL.length := by rw [hc2] at hj; exact hj
      apply boundsStep_ne
      · rw [hpo_i, hc3 j hjn]
        omega
      · rw [hpo_i]
        by_cases hpj : 0 < posL.getD j 0
        · rw [hp3 j hjn, if_pos hpj]
          rcases Nat.lt_or_ge j i with hji | hij
          · have := cntPos_lt_of_enabled posL j i hji hjn hpj
            omega
          · have hij2 : i < j := by omega
            have := cntPos_lt_of_enabled posL i j hij2 hi htc
            omega
        · rw [hp3 j hjn, if_neg hpj]
          omega
    have hres1 := foldl_bounds_write posL ico ipoL minit (ipoL.getD i 0)
      (some 0) none ico.length i hin hothersPo
      (fun mm => ⟨(boundsStep_write_pos _ _ _ minit mm hpc htc hm).2.2.1,
        (boundsStep_write_pos _ _ _ minit mm hpc htc hm).2.2.2⟩)
      (fun _ => none, fun _ => none)
    have hres2 := foldl_bounds_write posL ico ipoL minit (ico.getD i 0)
      (some 0) (some (minit (ico.getD i 0))) ico.length i hin hothersCo
      (fun mm => ⟨(boundsStep_write_pos _ _ _ minit mm hpc htc hm).1,
        (boundsStep_write_pos _ _ _ minit mm hpc htc hm).2.1⟩)
      (fun _ => none, fun _ => none)
    rw [← hB]
    exact ⟨hres1.1, hres1.2, hres2.1, hres2.2⟩
  · intro htc hm
    have hpo_i : ipoL.getD i 0 = startco + posL.length + cntPos posL i := by
      rw [hp3 i hi, if_pos htc]
    have hpc : ipoL.getD i 0 ≠ ico.getD i 0 := by
      rw [hpo_i, hco_i]
      omega
    have hothersPo : ∀ j, j < ico.length → j ≠ i →
        ∀ mm : (ℕ → Option ℚ) × (ℕ → Option ℚ),
        (boundsStep (posL.getD j 0) (ipoL.getD j 0) (ico.getD j 0) minit mm).1
            (ipoL.getD i 0) = mm.1 (ipoL.getD i 0)
        ∧ (boundsStep (posL.getD j 0) (ipoL.getD j 0) (ico.getD j 0) minit mm).2
            (ipoL.getD i 0) = mm.2 (ipoL.getD i 0) := by
      intro j hj hne mm
      have hjn : j < posL.length := by rw [hc2] at hj; exact hj
      apply boundsStep_ne
      · rw [hpo_i, hc3 j hjn]
        omega
      · rw [hpo_i]
        by_cases hpj : 0 < posL.getD j 0
        · rw [hp3 j hjn, if_pos hpj]
          rcases Nat.lt_or_ge j i with hji | hij
          · have := cntPos_lt_of_enabled posL j i hji hjn hpj
            omega
          · have hij2 : i < j := by omega
            have := cntPos_lt_of_enabled posL i j hij2 hi htc
            omega
        · rw [hp3 j hjn, if_neg hpj]
          omega
    have hres1 := foldl_bounds_write posL ico ipoL minit (ipoL.getD i 0)
      none (some 0) ico.length i hin hothersPo
      (fun mm => ⟨(boundsStep_write_neg _ _ _ minit mm hpc htc hm).2.2.1,
        (boundsStep_write_neg _ _ _ minit mm hpc htc hm).2.2.2⟩)
      (fun _ => none, fun _ => none)
    have hres2 := foldl_bounds_write posL ico ipoL minit (ico.getD i 0)
      (some (minit (ico.getD i 0))) (some 0) ico.length i hin hothersCo
      (fun mm => ⟨(boundsStep_write_neg _ _ _ minit mm hpc htc hm).1,
        (boundsStep_write_neg _ _ _ minit mm hpc htc hm).2.1⟩)
      (fun _ => none, fun _ => none)
    rw [← hB]
    exact ⟨hres1.1, hres1.2, hres2.1, hres2.2⟩
  · intro htc
    have hpres : ∀ j, j < ico.length →
        ∀ mm : (ℕ → Option ℚ) × (ℕ → Option ℚ),
        (boundsStep (posL.getD j 0) (ipoL.getD j 0) (ico.getD j 0) minit mm).1
            (ico.getD i 0) = mm.1 (ico.getD i 0)
        ∧ (boundsStep (posL.getD j 0) (ipoL.getD j 0) (ico.getD j 0) minit mm).2
            (ico.getD i 0) = mm.2 (ico.getD i 0) := by
      intro j hj mm
      by_cases hji : j = i
      · subst hji
        rw [boundsStep_disabled _ _ _ _ _ (not_lt.mpr htc)]
        exact ⟨rfl, rfl⟩
      · exact hothersCo j hj hji mm
    have hres := foldl_bounds_preserve posL ico ipoL minit (ico.getD i 0)
      ico.length hpres (fun _ => none, fun _ => none)
    rw [← hB]
    exact ⟨hres.1, hres.2⟩

/-- Witness for consInvert_ineq_bounds_pairs: two coseismic steps, the
first with characteristic time 2 (enabled) and a positive prior of 5, the
second with the 0 sentinel (disabled); the basis starts with the reference
function (startco = 1). -/
theorem consInvert_ineq_bounds_pairs_inst :
    ∃ B : (ℕ → Option ℚ) × (ℕ → Option ℚ),
      buildBounds [(2:ℚ), 0] (buildIndexco 1 2).2
          (buildIndexpo 3 [(2:ℚ), 0]).2.2 (fun _ => 5) = Except.ok B
      ∧ B.1 ((buildIndexpo 3 [(2:ℚ), 0]).2.2.getD 0 0) = some 0
      ∧ B.2 ((buildIndexpo 3 [(2:ℚ), 0]).2.2.getD 0 0) = none
      ∧ B.1 ((buildIndexco 1 2).2.getD 0 0) = some 0
      ∧ B.2 ((buildIndexco 1 2).2.getD 0 0) = some 5
      ∧ B.1 ((buildIndexco 1 2).2.getD 1 0) = none
      ∧ B.2 ((buildIndexco 1 2).2.getD 1 0) = none := by
  have hico : (buildIndexco 1 2).2.length = 2 := (buildIndexco_spec 1 2).2.1
  have hipo : (buildIndexpo 3 [(2:ℚ), 0]).2.2.length = 2 :=
    (buildIndexpo_spec 3 [(2:ℚ), 0]).2.1
  obtain ⟨B, hB⟩ := (buildBounds_ok_iff [(2:ℚ), 0] (buildIndexco 1 2).2
    (buildIndexpo 3 [(2:ℚ), 0]).2.2 (fun _ => 5)).mpr
    (by rw [hico, hipo]; exact ⟨le_rfl, le_rfl⟩)
  have h0 := (consInvert_ineq_bounds_pairs 1 le_rfl [(2:ℚ), 0] (fun _ => 5) 0
    (by norm_num) B hB).1 (by norm_num) (by norm_num)
  have h1 := (consInvert_ineq_bounds_pairs 1 le_rfl [(2:ℚ), 0] (fun _ => 5) 1
    (by norm_num) B hB).2.2 (by norm_num)
  exact ⟨B, hB, h0.1, h0.2.1, h0.2.2.1, h0.2.2.2, h1.1, h1.2⟩
